import Mathlib

/-!
Verification of the seniman transport/session core: the per-window paged
output stream (`window.js`), offset-based acknowledgment and replay, the
window manager's rate limiting and liveness sweep (`window_manager.js`),
the depth-ordered work queue, and the attribute/style token table.

The JavaScript source is shallowly embedded: Node `Buffer`s become `List Nat`
(one `Nat` per byte), object references into the `pages` array become indices
(index bookkeeping stands in for aliasing), transport sends are logged in a
`sent` list, buffers handed back to the shared buffer pool are logged in
`returnedPages`, and a ghost field `history` records every byte the encoder
ever produced (the logical contiguous stream), which the page invariant ties
to the live page buffers.  Fallible paths (`throw new Error`) are `Except`.
-/

namespace Seniman

/-- A slice `[a, b)` of a byte list, `l.subarray a b` in Node terms. -/
def slice (l : List Nat) (a b : Nat) : List Nat :=
  (l.drop a).take (b - a)

/-- One page of a window's output stream (`_allocPage` in window.js).
`buf` holds the bytes written to the page so far (the page's pool buffer is
filled left to right, so the suffix of the fixed-size pool block that has not
been written yet is dropped from the model). `finalSize = 0` while the page is
the active write target; sealing sets it to the number of bytes used. -/
structure Page where
  headOffset : Nat
  buf : List Nat
  finalSize : Nat
deriving Repr, DecidableEq

instance : Inhabited Page := ⟨{ headOffset := 0, buf := [], finalSize := 0 }⟩

/-- The open mutation group (`this.mutationGroup`): in the source it holds a
reference to its page; here the reference is the page's index in `pages`. -/
structure MutationGroup where
  pageIndex : Nat
  pageStartOffset : Nat
deriving Repr, DecidableEq

/-- The fields of the `Window` class that the transport core manipulates. -/
structure Window where
  pages : List Page
  global_readOffset : Nat
  global_writeOffset : Nat
  mutationGroup : Option MutationGroup
  connected : Bool
  lastPongTime : Nat
  tokenList : List (List Nat × Nat)
  deleteBlockIds : List Nat
  /-- chunks handed to `port.send`, oldest first -/
  sent : List (List Nat)
  /-- pages whose buffers were handed back to `bufferPool.returnBuffer` -/
  returnedPages : List Page
  /-- ghost: every byte ever produced into the stream, in order -/
  history : List Nat
deriving Repr, DecidableEq

/-- `_flushMutationGroup`: if connected and the open group is non-empty, send
the bytes written since the group's start offset; always close the group. -/
def _flushMutationGroup (w : Window) : Window :=
  match w.mutationGroup with
  | none => { w with mutationGroup := none }
  | some mg =>
    let p := w.pages.getD mg.pageIndex default
    if w.connected ∧ 0 < w.global_writeOffset - mg.pageStartOffset then
      let off := mg.pageStartOffset - p.headOffset
      let size := w.global_writeOffset - mg.pageStartOffset
      { w with sent := w.sent ++ [(p.buf.drop off).take size], mutationGroup := none }
    else
      { w with mutationGroup := none }

/-- `_allocCommandBuffer(size)`: returns the updated window together with the
page index and the start offset inside that page of the returned byte range.
If no mutation group is open, one is opened on the tail page (allocating the
first page if none exists).  If the write would overflow the page, the page is
sealed at its current fill, the group is flushed, and a fresh page is
allocated.  `global_writeOffset` advances by `size` unconditionally.
`_openMutationGroup` is the leading `if (!this.mutationGroup)` block: open a
group anchored at the current tail page, allocating the first page if the
window has none. -/
def _openMutationGroup (w : Window) : Window :=
  if w.mutationGroup.isSome then w
  else if w.pages.length == 0 then
    { w with
      pages := w.pages ++ [({ headOffset := w.global_writeOffset, buf := [], finalSize := 0 } : Page)],
      mutationGroup := some ({ pageIndex := w.pages.length, pageStartOffset := w.global_writeOffset } : MutationGroup) }
  else
    { w with mutationGroup := some ({ pageIndex := w.pages.length - 1, pageStartOffset := w.global_writeOffset } : MutationGroup) }

def _allocCommandBuffer (pageSize : Nat) (w : Window) (size : Nat) :
    Window × Nat × Nat :=
  let w := _openMutationGroup w
  let mg := w.mutationGroup.getD { pageIndex := 0, pageStartOffset := 0 }
  let page := w.pages.getD mg.pageIndex default
  let currentPageOffset := w.global_writeOffset - page.headOffset
  if pageSize ≤ currentPageOffset + size then
    let w := { w with
      pages := w.pages.set mg.pageIndex { page with finalSize := currentPageOffset } }
    let w := _flushMutationGroup w
    let pi := w.pages.length
    let w := { w with
      pages := w.pages ++ [({ headOffset := w.global_writeOffset, buf := [], finalSize := 0 } : Page)],
      mutationGroup := some ({ pageIndex := pi, pageStartOffset := w.global_writeOffset } : MutationGroup) }
    ({ w with global_writeOffset := w.global_writeOffset + size }, pi, 0)
  else
    ({ w with global_writeOffset := w.global_writeOffset + size }, mg.pageIndex,
      currentPageOffset)

/-- An encoder call: allocate `data.length` bytes via `_allocCommandBuffer`
and fill the returned range with `data` (every encoder in the source writes
the whole allocated range immediately). The ghost `history` records the
produced bytes. -/
def writeCommand (pageSize : Nat) (w : Window) (data : List Nat) : Window :=
  let r := _allocCommandBuffer pageSize w data.length
  let w := r.1
  let pi := r.2.1
  let start := r.2.2
  let p := w.pages.getD pi default
  { w with
    pages := w.pages.set pi { p with buf := p.buf.take start ++ data },
    history := w.history ++ data }

/-- The window state right before `_streamInitWindow` runs in the constructor:
no pages, both offsets 0, no open group, connected, and the token list seeded
with the reserved empty string at id 0. -/
def Window.fresh (now : Nat) : Window :=
  { pages := [], global_readOffset := 0, global_writeOffset := 0,
    mutationGroup := none, connected := true, lastPongTime := now,
    tokenList := [([], 0)], deleteBlockIds := [], sent := [],
    returnedPages := [], history := [] }

/-- Constructor tail: `_streamInitWindow` writes the 22-byte INIT_WINDOW
command (opcode 2 followed by the 21-byte window id). -/
def Window.init (pageSize now : Nat) (idBytes : List Nat) : Window :=
  writeCommand pageSize (Window.fresh now) (2 :: idBytes)

/-- The page-retirement loop of `registerReadOffset`: starting from the head
of `pages`, pop and return every sealed page the client has fully read.  The
source reads `pages[0]` without a bounds check; running off the end of the
list is the `none` case (a `TypeError` at runtime). Returns the remaining
pages and the retired ones. -/
def retirePages (ro : Nat) : List Page → Option (List Page × List Page)
  | [] => none
  | p :: rest =>
    if p.finalSize == 0 then some (p :: rest, [])
    else if p.headOffset + p.finalSize ≤ ro then
      match retirePages ro rest with
      | none => none
      | some (rem, freed) => some (rem, p :: freed)
    else some (p :: rest, [])

/-- `registerReadOffset(readOffset)`: reject a decreasing offset with an
error, otherwise record the new offset and retire fully-acknowledged pages,
returning their buffers to the pool. Popping head pages shifts the indices of
the remaining pages, so the mutation group's page index (a reference in the
source) is shifted along to keep denoting the same page. -/
def registerReadOffset (w : Window) (ro : Nat) : Except String Window :=
  if ro < w.global_readOffset then
    Except.error "Invalid offset"
  else
    match retirePages ro w.pages with
    | none => Except.error "TypeError: pages[0] is undefined"
    | some (rem, freed) =>
      Except.ok { w with
        global_readOffset := ro,
        pages := rem,
        returnedPages := w.returnedPages ++ freed,
        mutationGroup := w.mutationGroup.map
          (fun m => { pageIndex := m.pageIndex - freed.length, pageStartOffset := m.pageStartOffset }) }

/-- The page walk of `_restreamUnreadPages`: for each retained page compute
the start offset and size exactly as the source does, emit the corresponding
chunk, and advance the running read offset; returns the final running offset
and the chunks in order. -/
def restreamLoop (wOff : Nat) : Nat → List Page → Nat × List (List Nat)
  | ro, [] => (ro, [])
  | ro, p :: rest =>
    let off := ro - p.headOffset
    let size := if 0 < p.finalSize then p.headOffset + p.finalSize - ro else wOff - ro
    let chunk := (p.buf.drop off).take size
    let r := restreamLoop wOff (ro + size) rest
    (r.1, chunk :: r.2)

/-- `_restreamUnreadPages`: if bytes were produced past the acknowledged
offset, walk the retained pages re-sending every unacknowledged byte; the
source throws if the walk does not land exactly on `global_writeOffset`. -/
def _restreamUnreadPages (w : Window) : Except String Window :=
  if w.global_readOffset < w.global_writeOffset then
    let r := restreamLoop w.global_writeOffset w.global_readOffset w.pages
    if r.1 ≠ w.global_writeOffset then Except.error "restream offset mismatch"
    else Except.ok { w with sent := w.sent ++ r.2 }
  else
    Except.ok w

/-- `reconnect(port, pageParams)`: mark the window connected, refresh the
pong clock, register the client-reported read offset, and replay the
unacknowledged byte range. -/
def Window.reconnect (w : Window) (now ro : Nat) : Except String Window :=
  match registerReadOffset { w with connected := true, lastPongTime := now } ro with
  | Except.error e => Except.error e
  | Except.ok w2 => _restreamUnreadPages w2

/-- `disconnect()`. -/
def Window.disconnect (w : Window) : Window :=
  { w with connected := false }

/-- `sendPing()`: the 1-byte ping opcode 0. -/
def Window.sendPing (w : Window) : Window :=
  { w with sent := w.sent ++ [[0]] }

/-- Big-endian 16-bit write (`writeUint16BE`). -/
def u16BE (n : Nat) : List Nat :=
  [n / 256 % 256, n % 256]

/-- `flushBlockDeleteQueue()`: if block deletions are pending, emit one
REMOVE_BLOCKS command (opcode 9, the queued 16-bit ids, 16-bit end marker 0)
and clear the queue. -/
def flushBlockDeleteQueue (pageSize : Nat) (w : Window) : Window :=
  if 0 < w.deleteBlockIds.length then
    let data := 9 :: ((w.deleteBlockIds.map u16BE).flatten ++ [0, 0])
    let w := writeCommand pageSize w data
    { w with deleteBlockIds := [] }
  else w

/-- `destroy()` hands every retained page's buffer back to the pool; the
manager's `onDestroy` callback then drops the window from the registry. This
returns the buffers freed. -/
def Window.destroyFreedBuffers (w : Window) : List (List Nat) :=
  w.pages.map Page.buf

/-- Token-table lookup (`this.tokenList.get` / `.has` on the `Map`). -/
def lookupToken (l : List (List Nat × Nat)) (name : List Nat) : Option Nat :=
  match l.find? (fun e => e.1 == name) with
  | some e => some e.2
  | none => none

/-- `_streamModifyToken(tokenName)`: opcode 12 (MODIFY_TOKENMAP), a 1-byte
length, the token bytes, and a trailing 0 (`writeUint8` wraps mod 256). -/
def _streamModifyToken (pageSize : Nat) (w : Window) (tokenName : List Nat) :
    Window :=
  writeCommand pageSize w (12 :: (tokenName.length % 256) :: (tokenName ++ [0]))

/-- `_registerAttrKey` / `_registerStyleKey` (identical bodies): if the name
is not yet in the token list, register it under the next id (`tokenList.size`)
and stream a MODIFY_TOKENMAP command; in every case return the id the token
list maps the name to. -/
def _registerAttrKey (pageSize : Nat) (w : Window) (attrName : List Nat) :
    Window × Nat :=
  if (lookupToken w.tokenList attrName).isSome then
    (w, (lookupToken w.tokenList attrName).getD 0)
  else
    let newId := w.tokenList.length
    let w := { w with tokenList := w.tokenList ++ [(attrName, newId)] }
    let w := _streamModifyToken pageSize w attrName
    (w, (lookupToken w.tokenList attrName).getD 0)

/-! ### The page/stream well-formedness invariant

`Window.wf` is the state invariant the constructor establishes and all the
stream operations preserve: the retained pages tile a contiguous suffix of
the produced byte `history` ending at `global_writeOffset`, every page except
the last is sealed (`0 < finalSize ≤ pageSize`) and holds exactly its slice
of the history, the last page is the active write target (`finalSize = 0`)
with the history bytes from its head offset onward, the acknowledged read
offset does not precede the first retained page, and an open mutation group
denotes the tail page with a start offset inside it. -/

/-- A sealed page starting at stream offset `h`. -/
def sealedOk (hist : List Nat) (pageSize h : Nat) (p : Page) : Bool :=
  p.headOffset == h && decide (0 < p.finalSize) && decide (p.finalSize ≤ pageSize)
    && p.buf == slice hist h (h + p.finalSize)

/-- `ps` is a chain of sealed pages tiling the stream range `[h, b)`. -/
def chainOk (hist : List Nat) (pageSize : Nat) : Nat → Nat → List Page → Bool
  | h, b, [] => h == b
  | h, b, p :: rest =>
    sealedOk hist pageSize h p && chainOk hist pageSize (h + p.finalSize) b rest

/-- The active tail page: unsealed, covering `[headOffset, wOff)`. -/
def tailOk (hist : List Nat) (wOff pageSize : Nat) (t : Page) : Bool :=
  t.finalSize == 0 && t.buf == slice hist t.headOffset wOff
    && decide (t.headOffset < wOff) && decide (wOff - t.headOffset ≤ pageSize)

/-- Stream offset of the first retained page. -/
def headStart (ps : List Page) : Nat :=
  (ps.headD default).headOffset

/-- The retained pages: a sealed chain followed by the active tail. -/
def pagesOk (hist : List Nat) (wOff pageSize s : Nat) (ps : List Page) : Bool :=
  match ps.getLast? with
  | none => false
  | some t =>
    chainOk hist pageSize s t.headOffset ps.dropLast && tailOk hist wOff pageSize t

/-- An open mutation group denotes the tail page, started inside it. -/
def mgOk (w : Window) : Bool :=
  match w.mutationGroup with
  | none => true
  | some mg =>
    mg.pageIndex + 1 == w.pages.length
      && decide ((w.pages.getLastD default).headOffset ≤ mg.pageStartOffset)
      && decide (mg.pageStartOffset ≤ w.global_writeOffset)

/-- The window invariant (see the section comment above). -/
def Window.wf (pageSize : Nat) (w : Window) : Bool :=
  w.history.length == w.global_writeOffset
    && pagesOk w.history w.global_writeOffset pageSize (headStart w.pages) w.pages
    && decide (headStart w.pages ≤ w.global_readOffset)
    && mgOk w

/-! ### Work queue (`class WorkQueue` in window.js) -/

/-- A queued unit of reactive recomputation; only its tree `depth` matters to
the scheduler, `tag` stands for the node's identity. -/
structure WorkItem where
  depth : Nat
  tag : Nat
deriving Repr, DecidableEq

/-- The backward scan of `WorkQueue.add`, expressed on the reversed queue:
walking from the most recently inserted item, place the new item right before
the first item (of the reversed list) whose depth is ≤ its own. -/
def addScan (item : WorkItem) : List WorkItem → List WorkItem
  | [] => [item]
  | x :: rest =>
    if x.depth ≤ item.depth then item :: x :: rest
    else x :: addScan item rest

namespace WorkQueue

/-- `WorkQueue.add(item)`: scan from the end of the queue for the first item
with depth ≤ the new item's depth and splice the new item in right after it;
if none exists, unshift it to the front. -/
def add (q : List WorkItem) (item : WorkItem) : List WorkItem :=
  (addScan item q.reverse).reverse

/-- `WorkQueue.poll()`: `shift` the front item (`none` when empty). -/
def poll (q : List WorkItem) : Option WorkItem × List WorkItem :=
  match q with
  | [] => (none, [])
  | x :: rest => (some x, rest)

end WorkQueue

/-! ### Window manager (`window_manager.js`) -/

/-- Modelled from the spec: the repository delegates per-session rate
limiting to the external `fast-ratelimit` package
(`new FastRateLimit({ threshold: 8, ttl: 2 })`), whose code is not part of
the repository.  Per the spec it is a token bucket of capacity 8 messages
per fixed interval: within one interval, `consumeSync(id)` succeeds for the
first 8 consumptions for a session id and fails from the 9th on.  Expiry of
the interval (the `ttl`) is outside the model; `counts` records each
session's consumptions within the current interval. -/
structure RateLimiter where
  counts : Nat → Nat

/-- Modelled from the spec: `messageLimiter.consumeSync(window.id)` — consume
one token for the session; `true` while the session has used fewer than 8
tokens in the current interval. -/
def RateLimiter.consumeSync (rl : RateLimiter) (id : Nat) : Bool × RateLimiter :=
  if rl.counts id < 8 then
    (true, ⟨fun j => if j = id then rl.counts id + 1 else rl.counts j⟩)
  else (false, rl)

/-- The window manager: the registry of windows keyed by session id, the
single shared inbound-message queue, and the per-session rate limiter. -/
structure Manager where
  windowMap : List (Nat × Window)
  queue : List (Nat × List Nat)
  limiter : RateLimiter

/-- `_enqueueMessage(window, message)`: consult the rate limiter; if the
session is over limit, drop the message (return without queueing, no error);
otherwise push `[window, message]` onto the shared queue. -/
def Manager.enqueueMessage (m : Manager) (wid : Nat) (msg : List Nat) : Manager :=
  let r := m.limiter.consumeSync wid
  if r.1 then
    { m with limiter := r.2, queue := m.queue ++ [(wid, msg)] }
  else
    { m with limiter := r.2 }

/-- Association-list lookup in the window registry (`windowMap.get`). -/
def Manager.getWindow (m : Manager) (wid : Nat) : Option Window :=
  match m.windowMap.find? (fun e => e.1 == wid) with
  | some e => some e.2
  | none => none

/-- Replace a registered window (the source mutates the `Window` object in
place; the registry keeps pointing at it). -/
def Manager.setWindow (m : Manager) (wid : Nat) (w : Window) : Manager :=
  { m with windowMap := m.windowMap.map (fun e => if e.1 == wid then (wid, w) else e) }

/-- `disconnectWindow(windowId)`: guarded by `windowMap.has`; unknown ids are
a silent no-op. -/
def Manager.disconnectWindow (m : Manager) (wid : Nat) : Manager :=
  match m.getWindow wid with
  | some w => m.setWindow wid w.disconnect
  | none => m

/-- `reconnectWindow(msg)`: `windowMap.get(windowId).reconnect(...)` with no
existence check — on an unknown id the method call on `undefined` throws a
`TypeError` before anything is mutated. -/
def Manager.reconnectWindow (m : Manager) (wid now ro : Nat) :
    Except String Manager :=
  match m.getWindow wid with
  | none => Except.error "TypeError: reconnect of undefined"
  | some w => do
    let w2 ← w.reconnect now ro
    Except.ok (m.setWindow wid w2)

/-- The outcome of the lifecycle sweep for one window: destroyed (with the
page buffers handed back to the pool) or kept with an updated state. -/
inductive SweepResult where
  | destroyed (freed : List (List Nat))
  | kept (w : Window)
deriving Repr, DecidableEq

/-- The sweep's first step: mark the window disconnected after 6000 ms
without a pong (`if (pongDiff >= 6000) window.connected = false`). -/
def sweepMark (now : Nat) (w : Window) : Window :=
  if 6000 ≤ now - w.lastPongTime then { w with connected := false } else w

/-- One window's share of `_runWindowsLifecycleManagement`'s 2.5-second tick:
mark the window disconnected after 6000 ms without a pong; destroy a
disconnected window when memory is low or 60000 ms have passed since the last
pong; otherwise send a ping and flush the block-delete queue. -/
def sweepWindow (pageSize now : Nat) (isLowMemory : Bool) (w : Window) :
    SweepResult :=
  if (sweepMark now w).connected = false
      ∧ (isLowMemory ∨ 60000 ≤ now - w.lastPongTime) then
    SweepResult.destroyed (sweepMark now w).destroyFreedBuffers
  else
    SweepResult.kept (flushBlockDeleteQueue pageSize (sweepMark now w).sendPing)

/-- The full sweep over the registry: destroyed windows are dropped from the
registry (the `onDestroy` callback deletes them) and their freed page buffers
are collected; surviving windows stay registered with their updated state. -/
def sweepEntries (pageSize now : Nat) (isLowMemory : Bool) :
    List (Nat × Window) → List (Nat × Window) × List (List Nat)
  | [] => ([], [])
  | (wid, w) :: rest =>
    match sweepWindow pageSize now isLowMemory w with
    | SweepResult.destroyed freed =>
      ((sweepEntries pageSize now isLowMemory rest).1,
        freed ++ (sweepEntries pageSize now isLowMemory rest).2)
    | SweepResult.kept w2 =>
      ((wid, w2) :: (sweepEntries pageSize now isLowMemory rest).1,
        (sweepEntries pageSize now isLowMemory rest).2)

/-! ### Helper lemmas about slices and list surgery -/

theorem slice_take (l : List Nat) (a b : Nat) :
    (slice l a b).take (b - a) = slice l a b := by
  simp [slice, List.take_take]

theorem slice_drop (l : List Nat) (a b c : Nat) (h : a ≤ b) :
    (slice l a c).drop (b - a) = slice l b c := by
  simp only [slice, List.drop_take, List.drop_drop]
  have h1 : a + (b - a) = b := by omega
  have h2 : c - a - (b - a) = c - b := by omega
  rw [h1, h2]

theorem slice_glue (l : List Nat) (a m b : Nat) (h1 : a ≤ m) (h2 : m ≤ b) :
    slice l a m ++ slice l m b = slice l a b := by
  have hb : b - a = (m - a) + (b - m) := by omega
  simp only [slice, hb, List.take_add, List.drop_take, List.drop_drop]
  have h3 : a + (m - a) = m := by omega
  rw [h3]

theorem slice_append_of_le (l d : List Nat) (a b : Nat) (h : b ≤ l.length) :
    slice (l ++ d) a b = slice l a b := by
  by_cases hab : a ≤ b
  · simp only [slice]
    rw [List.drop_append_of_le_length (by omega)]
    rw [List.take_append_of_le_length (by simp [List.length_drop]; omega)]
  · have : b - a = 0 := by omega
    simp [slice, this]

theorem slice_append_end (l d : List Nat) (a : Nat) (h : a ≤ l.length) :
    slice (l ++ d) a (l.length + d.length) = slice l a l.length ++ d := by
  simp only [slice]
  rw [List.drop_append_of_le_length h]
  have hlen : (l.drop a).length = l.length - a := by simp
  have : l.length + d.length - a = (l.drop a).length + d.length := by omega
  rw [this, List.take_append]
  simp [hlen]

theorem slice_of_length (l : List Nat) : slice l 0 l.length = l := by
  simp [slice]

theorem slice_append_self (l d : List Nat) :
    slice (l ++ d) l.length (l.length + d.length) = d := by
  simp only [slice, List.drop_left]
  have : l.length + d.length - l.length = d.length := by omega
  simp [this]

theorem slice_length (l : List Nat) (a b : Nat) (h : b ≤ l.length) :
    (slice l a b).length = b - a := by
  simp [slice, List.length_take, List.length_drop]
  omega

theorem slice_nil_of_ge (l : List Nat) (a b : Nat) (h : b ≤ a) :
    slice l a b = [] := by
  have : b - a = 0 := by omega
  simp [slice, this]

theorem getD_concat {α : Type} (l : List α) (a d : α) :
    (l ++ [a]).getD l.length d = a := by
  simp [List.getD, List.getElem?_concat_length]

theorem set_concat {α : Type} (l : List α) (a x : α) :
    (l ++ [a]).set l.length x = l ++ [x] := by
  rw [List.set_append_right _ _ (Nat.le_refl _)]
  simp

/-! ### Lemmas about the invariant pieces -/

theorem pagesOk_decomp (hist : List Nat) (wOff pageSize s : Nat) (ps : List Page)
    (h : pagesOk hist wOff pageSize s ps = true) :
    ∃ sealed t, ps = sealed ++ [t]
      ∧ chainOk hist pageSize s t.headOffset sealed = true
      ∧ tailOk hist wOff pageSize t = true := by
  match ps, h with
  | [], h => simp [pagesOk] at h
  | p :: rest, h =>
    have hne : p :: rest ≠ [] := by simp
    refine ⟨(p :: rest).dropLast, (p :: rest).getLast hne, ?_, ?_, ?_⟩
    · exact (List.dropLast_concat_getLast hne).symm
    · simp only [pagesOk, List.getLast?_eq_getLast _ hne, Bool.and_eq_true] at h
      exact h.1
    · simp only [pagesOk, List.getLast?_eq_getLast _ hne, Bool.and_eq_true] at h
      exact h.2

theorem pagesOk_build (hist : List Nat) (wOff pageSize s : Nat)
    (sealed : List Page) (t : Page)
    (hc : chainOk hist pageSize s t.headOffset sealed = true)
    (ht : tailOk hist wOff pageSize t = true) :
    pagesOk hist wOff pageSize s (sealed ++ [t]) = true := by
  simp [pagesOk, List.getLast?_concat, hc, ht]

theorem chainOk_le (hist : List Nat) (pageSize : Nat) :
    ∀ (ps : List Page) (h b : Nat), chainOk hist pageSize h b ps = true → h ≤ b := by
  intro ps
  induction ps with
  | nil => intro h b hc; simp [chainOk] at hc; omega
  | cons p rest ih =>
    intro h b hc
    simp only [chainOk, Bool.and_eq_true] at hc
    have h1 := ih (h + p.finalSize) b hc.2
    omega

theorem sealedOk_append_hist (hist d : List Nat) (pageSize h : Nat) (p : Page)
    (hle : h + p.finalSize ≤ hist.length)
    (hp : sealedOk hist pageSize h p = true) :
    sealedOk (hist ++ d) pageSize h p = true := by
  simp only [sealedOk, Bool.and_eq_true, beq_iff_eq, decide_eq_true_eq] at hp ⊢
  rw [slice_append_of_le _ _ _ _ hle]
  exact hp

theorem chainOk_append_hist (hist d : List Nat) (pageSize : Nat) :
    ∀ (ps : List Page) (h b : Nat), b ≤ hist.length →
      chainOk hist pageSize h b ps = true →
      chainOk (hist ++ d) pageSize h b ps = true := by
  intro ps
  induction ps with
  | nil => intro h b _ hc; simpa [chainOk] using hc
  | cons p rest ih =>
    intro h b hb hc
    simp only [chainOk, Bool.and_eq_true] at hc ⊢
    have hend : h + p.finalSize ≤ b := chainOk_le hist pageSize rest _ _ hc.2
    exact ⟨sealedOk_append_hist hist d pageSize h p (by omega) hc.1,
           ih (h + p.finalSize) b hb hc.2⟩

theorem chainOk_concat (hist : List Nat) (pageSize : Nat) :
    ∀ (ps : List Page) (h b : Nat) (p : Page),
      chainOk hist pageSize h b ps = true →
      sealedOk hist pageSize b p = true →
      chainOk hist pageSize h (b + p.finalSize) (ps ++ [p]) = true := by
  intro ps
  induction ps with
  | nil =>
    intro h b p hc hs
    simp only [chainOk, beq_iff_eq] at hc
    subst hc
    simp [chainOk, hs]
  | cons q rest ih =>
    intro h b p hc hs
    simp only [chainOk, Bool.and_eq_true] at hc
    simp only [List.cons_append, chainOk, Bool.and_eq_true]
    exact ⟨hc.1, ih (h + q.finalSize) b p hc.2 hs⟩

/-! ### Characterizing the allocator on well-formed states -/

theorem flush_shape (w : Window) :
    ∃ snt, _flushMutationGroup w = { w with sent := snt, mutationGroup := none } := by
  unfold _flushMutationGroup
  cases hW : w.mutationGroup with
  | none => exact ⟨w.sent, rfl⟩
  | some m =>
    by_cases hc : w.connected ∧ 0 < w.global_writeOffset - m.pageStartOffset
    · simp only [hc, if_true]
      exact ⟨_, rfl⟩
    · simp only [hc, if_false]
      exact ⟨w.sent, rfl⟩

theorem openMG_some (w : Window) (h : w.mutationGroup.isSome = true) :
    _openMutationGroup w = w := by
  simp [_openMutationGroup, h]

theorem openMG_none (w : Window) (sealed : List Page) (t : Page)
    (hmg : w.mutationGroup = none) (hpages : w.pages = sealed ++ [t]) :
    _openMutationGroup w =
      { w with mutationGroup := some { pageIndex := sealed.length,
                                       pageStartOffset := w.global_writeOffset } } := by
  simp [_openMutationGroup, hmg, hpages]

/-- The page a seal turns the active tail into: `finalSize` is set to the
bytes used (`page.finalSize = currentPageOffset` in the source). -/
def sealPage (t : Page) (wOff : Nat) : Page :=
  { t with finalSize := wOff - t.headOffset }

/-- A freshly allocated page at stream offset `wOff` (`_allocPage`). -/
def freshPage (wOff : Nat) : Page :=
  { headOffset := wOff, buf := [], finalSize := 0 }

theorem alloc_shape (pageSize n : Nat) (w : Window) (sealed : List Page) (t : Page)
    (hpages : w.pages = sealed ++ [t])
    (hmg : mgOk w = true)
    (hth : t.headOffset < w.global_writeOffset) :
    (pageSize ≤ w.global_writeOffset - t.headOffset + n →
      ∃ snt, _allocCommandBuffer pageSize w n =
        ({ w with
            pages := (sealed ++ [sealPage t w.global_writeOffset]) ++
              [freshPage w.global_writeOffset],
            mutationGroup := some { pageIndex := sealed.length + 1,
                                    pageStartOffset := w.global_writeOffset },
            sent := snt,
            global_writeOffset := w.global_writeOffset + n },
          (sealed ++ [sealPage t w.global_writeOffset]).length, 0))
    ∧ (w.global_writeOffset - t.headOffset + n < pageSize →
      ∃ pso, t.headOffset ≤ pso ∧ pso ≤ w.global_writeOffset ∧
        _allocCommandBuffer pageSize w n =
        ({ w with
            mutationGroup := some { pageIndex := sealed.length, pageStartOffset := pso },
            global_writeOffset := w.global_writeOffset + n },
          sealed.length, w.global_writeOffset - t.headOffset)) := by
  have hgetD : ∀ x : Page, (sealed ++ [x]).getD sealed.length default = x :=
    fun x => getD_concat sealed x default
  have hset : ∀ x y : Page, (sealed ++ [x]).set sealed.length y = sealed ++ [y] :=
    fun x y => set_concat sealed x y
  cases hW : w.mutationGroup with
  | none =>
    have hopen := openMG_none w sealed t hW hpages
    constructor
    · intro hover
      simp only [_allocCommandBuffer, hopen, Option.getD_some, hpages, hgetD,
        if_pos hover, hset]
      obtain ⟨snt, hfl⟩ := flush_shape
        { w with
          pages := sealed ++ [{ t with finalSize := w.global_writeOffset - t.headOffset }],
          mutationGroup :=
            some { pageIndex := sealed.length, pageStartOffset := w.global_writeOffset } }
      rw [hfl]
      refine ⟨snt, ?_⟩
      simp [sealPage, freshPage, List.length_append]
    · intro hunder
      refine ⟨w.global_writeOffset, Nat.le_of_lt hth, Nat.le_refl _, ?_⟩
      simp only [_allocCommandBuffer, hopen, Option.getD_some, hpages, hgetD,
        if_neg (by omega : ¬ pageSize ≤ w.global_writeOffset - t.headOffset + n)]
  | some m =>
    obtain ⟨pi, pso⟩ := m
    have hopen := openMG_some w (by rw [hW]; rfl)
    have hmgFacts : pi = sealed.length ∧ t.headOffset ≤ pso ∧
        pso ≤ w.global_writeOffset := by
      simp only [mgOk, hW, Bool.and_eq_true, beq_iff_eq, decide_eq_true_eq, hpages,
        List.getLastD_concat, List.length_append, List.length_cons, List.length_nil] at hmg
      omega
    obtain ⟨hpi, hle1, hle2⟩ := hmgFacts
    subst hpi
    constructor
    · intro hover
      simp only [_allocCommandBuffer, hopen, hW, Option.getD_some, hpages, hgetD,
        if_pos hover, hset]
      obtain ⟨snt, hfl⟩ := flush_shape
        { w with
          pages := sealed ++ [{ t with finalSize := w.global_writeOffset - t.headOffset }] }
      rw [show ({ w with
          pages := sealed ++ [{ t with finalSize := w.global_writeOffset - t.headOffset }] } :
            Window).mutationGroup = some { pageIndex := sealed.length, pageStartOffset := pso }
          from hW] at hfl
      rw [hfl]
      refine ⟨snt, ?_⟩
      simp [sealPage, freshPage, List.length_append]
    · intro hunder
      refine ⟨pso, hle1, hle2, ?_⟩
      simp only [_allocCommandBuffer, hopen, hW, Option.getD_some, hpages, hgetD,
        if_neg (by omega : ¬ pageSize ≤ w.global_writeOffset - t.headOffset + n)]

theorem headStart_same (sealed : List Page) (x y : Page) (l1 l2 : List Page)
    (hxy : x.headOffset = y.headOffset) :
    headStart (sealed ++ x :: l1) = headStart (sealed ++ y :: l2) := by
  cases sealed <;> simp [headStart, hxy]

/-- Unpacking `Window.wf` into its propositional components. -/
theorem wf_destruct (pageSize : Nat) (w : Window) (hwf : w.wf pageSize = true) :
    w.history.length = w.global_writeOffset
      ∧ pagesOk w.history w.global_writeOffset pageSize (headStart w.pages) w.pages = true
      ∧ headStart w.pages ≤ w.global_readOffset
      ∧ mgOk w = true := by
  simp only [Window.wf, Bool.and_eq_true, beq_iff_eq, decide_eq_true_eq] at hwf
  tauto

theorem wf_build (pageSize : Nat) (w : Window)
    (h1 : w.history.length = w.global_writeOffset)
    (h2 : pagesOk w.history w.global_writeOffset pageSize (headStart w.pages) w.pages = true)
    (h3 : headStart w.pages ≤ w.global_readOffset)
    (h4 : mgOk w = true) : w.wf pageSize = true := by
  simp only [Window.wf, Bool.and_eq_true, beq_iff_eq, decide_eq_true_eq]
  tauto

/-- Unpacking `tailOk`. -/
theorem tailOk_destruct (hist : List Nat) (wOff pageSize : Nat) (t : Page)
    (h : tailOk hist wOff pageSize t = true) :
    t.finalSize = 0 ∧ t.buf = slice hist t.headOffset wOff
      ∧ t.headOffset < wOff ∧ wOff - t.headOffset ≤ pageSize := by
  simp only [tailOk, Bool.and_eq_true, beq_iff_eq, decide_eq_true_eq] at h
  tauto

theorem tailOk_build (hist : List Nat) (wOff pageSize : Nat) (t : Page)
    (h1 : t.finalSize = 0) (h2 : t.buf = slice hist t.headOffset wOff)
    (h3 : t.headOffset < wOff) (h4 : wOff - t.headOffset ≤ pageSize) :
    tailOk hist wOff pageSize t = true := by
  simp only [tailOk, Bool.and_eq_true, beq_iff_eq, decide_eq_true_eq]
  tauto

theorem sealedOk_build (hist : List Nat) (pageSize h : Nat) (p : Page)
    (h1 : p.headOffset = h) (h2 : 0 < p.finalSize) (h3 : p.finalSize ≤ pageSize)
    (h4 : p.buf = slice hist h (h + p.finalSize)) :
    sealedOk hist pageSize h p = true := by
  simp only [sealedOk, Bool.and_eq_true, beq_iff_eq, decide_eq_true_eq]
  tauto

/-- `writeCommand` preserves the window invariant: the allocator never
splits the write across pages, seals only non-empty pages, and keeps the
retained pages tiling the history suffix. -/
theorem writeCommand_wf (pageSize : Nat) (w : Window) (data : List Nat)
    (hwf : w.wf pageSize = true) (h0 : 0 < data.length)
    (hle : data.length ≤ pageSize) :
    (writeCommand pageSize w data).wf pageSize = true := by
  obtain ⟨hhist, hpOk, hro, hmgok⟩ := wf_destruct pageSize w hwf
  obtain ⟨sealed, t, hpages, hchain, htail⟩ :=
    pagesOk_decomp _ _ _ _ _ hpOk
  obtain ⟨hfs, hbuf, hlt, hcap⟩ := tailOk_destruct _ _ _ _ htail
  have hs : headStart w.pages = headStart (sealed ++ [t]) := by rw [hpages]
  rw [hs] at hchain hro
  by_cases hov : pageSize ≤ w.global_writeOffset - t.headOffset + data.length
  · -- overflow: seal the tail at its current fill and write into a fresh page
    obtain ⟨snt, heq⟩ :=
      (alloc_shape pageSize data.length w sealed t hpages hmgok hlt).1 hov
    unfold writeCommand
    rw [heq]
    simp only [getD_concat, set_concat]
    have hsealed : sealedOk (w.history ++ data) pageSize t.headOffset
        (sealPage t w.global_writeOffset) = true := by
      apply sealedOk_build
      · rfl
      · simp only [sealPage]
        omega
      · simp only [sealPage]
        omega
      · simp only [sealPage]
        rw [hbuf]
        rw [show t.headOffset + (w.global_writeOffset - t.headOffset) =
            w.global_writeOffset from by omega]
        rw [slice_append_of_le w.history data t.headOffset w.global_writeOffset
          (by omega)]
    apply wf_build
    · simp only [List.length_append]
      omega
    · simp only
      have hstart : headStart ((sealed ++ [sealPage t w.global_writeOffset]) ++
          [{ freshPage w.global_writeOffset with
              buf := (freshPage w.global_writeOffset).buf.take 0 ++ data }]) =
          headStart (sealed ++ [t]) := by
        rw [List.append_assoc]
        exact headStart_same sealed _ t _ _ rfl
      apply pagesOk_build
      · rw [hstart]
        have h1 : chainOk (w.history ++ data) pageSize (headStart (sealed ++ [t]))
            t.headOffset sealed = true :=
          chainOk_append_hist _ _ _ _ _ _ (by omega) hchain
        have h3 := chainOk_concat _ _ _ _ _ _ h1 hsealed
        have hend : t.headOffset + (sealPage t w.global_writeOffset).finalSize =
            w.global_writeOffset := by
          simp only [sealPage]
          omega
        rw [hend] at h3
        simpa [freshPage] using h3
      · apply tailOk_build
        · rfl
        · simp only [freshPage, List.take_nil, List.nil_append]
          rw [← hhist]
          exact (slice_append_self w.history data).symm
        · simp only [freshPage]
          omega
        · simp only [freshPage]
          omega
    · simp only
      cases sealed with
      | nil => simpa [headStart, sealPage] using hro
      | cons p ps => simpa [headStart] using hro
    · simp only [mgOk, List.getLastD_concat, List.length_append, List.length_cons,
        List.length_nil, beq_iff_eq, Bool.and_eq_true, decide_eq_true_eq]
      refine ⟨⟨trivial, by simp [freshPage]⟩, by omega⟩
  · -- no overflow: append into the current tail page
    obtain ⟨pso, hle1, hle2, heq⟩ :=
      (alloc_shape pageSize data.length w sealed t hpages hmgok hlt).2 (by omega)
    unfold writeCommand
    rw [heq]
    simp only
    rw [hpages]
    simp only [getD_concat, set_concat]
    apply wf_build
    · simp only [List.length_append]
      omega
    · simp only
      apply pagesOk_build
      · have hhead : headStart (sealed ++ [{ t with
            buf := t.buf.take (w.global_writeOffset - t.headOffset) ++ data }]) =
            headStart (sealed ++ [t]) :=
          headStart_same sealed _ t [] [] rfl
        rw [hhead]
        exact chainOk_append_hist w.history data pageSize sealed _ t.headOffset
          (by omega) hchain
      · apply tailOk_build
        · simp [hfs]
        · simp only
          rw [hbuf, slice_take]
          rw [show w.global_writeOffset + data.length =
            w.history.length + data.length from by omega]
          rw [slice_append_end w.history data t.headOffset (by omega), hhist]
        · simp only
          omega
        · simp only
          omega
    · simp only
      cases sealed with
      | nil => simpa [headStart] using hro
      | cons p ps => simpa [headStart] using hro
    · simp only [mgOk, List.getLastD_concat, List.length_append, List.length_cons,
        List.length_nil, beq_iff_eq, Bool.and_eq_true, decide_eq_true_eq]
      refine ⟨⟨trivial, by simpa using hle1⟩, by omega⟩

/-- The fields of the window `writeCommand` never touches, and the ones it
always updates the same way, regardless of branch. -/
theorem writeCommand_fields (pageSize : Nat) (w : Window) (data : List Nat)
    (hwf : w.wf pageSize = true) :
    (writeCommand pageSize w data).history = w.history ++ data
    ∧ (writeCommand pageSize w data).global_readOffset = w.global_readOffset
    ∧ (writeCommand pageSize w data).global_writeOffset =
        w.global_writeOffset + data.length
    ∧ (writeCommand pageSize w data).returnedPages = w.returnedPages
    ∧ (writeCommand pageSize w data).tokenList = w.tokenList
    ∧ (writeCommand pageSize w data).connected = w.connected
    ∧ (writeCommand pageSize w data).lastPongTime = w.lastPongTime
    ∧ (writeCommand pageSize w data).deleteBlockIds = w.deleteBlockIds := by
  obtain ⟨hhist, hpOk, hro, hmgok⟩ := wf_destruct pageSize w hwf
  obtain ⟨sealed, t, hpages, hchain, htail⟩ := pagesOk_decomp _ _ _ _ _ hpOk
  obtain ⟨hfs, hbuf, hlt, hcap⟩ := tailOk_destruct _ _ _ _ htail
  by_cases hov : pageSize ≤ w.global_writeOffset - t.headOffset + data.length
  · obtain ⟨snt, heq⟩ :=
      (alloc_shape pageSize data.length w sealed t hpages hmgok hlt).1 hov
    unfold writeCommand
    rw [heq]
    simp
  · obtain ⟨pso, _, _, heq⟩ :=
      (alloc_shape pageSize data.length w sealed t hpages hmgok hlt).2 (by omega)
    unfold writeCommand
    rw [heq]
    simp

/-- The retirement loop on a well-formed page list: it never runs off the end
of the list, retires exactly the fully-acknowledged prefix of the sealed
chain, and stops at the tail page at the latest. -/
theorem retire_spec (hist : List Nat) (pageSize wOff : Nat) :
    ∀ (sealed : List Page) (t : Page) (h ro : Nat),
      chainOk hist pageSize h t.headOffset sealed = true →
      tailOk hist wOff pageSize t = true →
      h ≤ ro →
      headStart (sealed ++ [t]) = h →
      ∃ sealed2 freed,
        retirePages ro (sealed ++ [t]) = some (sealed2 ++ [t], freed)
        ∧ sealed = freed ++ sealed2
        ∧ chainOk hist pageSize (headStart (sealed2 ++ [t])) t.headOffset sealed2 = true
        ∧ headStart (sealed2 ++ [t]) ≤ ro
        ∧ (∀ p ∈ freed, 0 < p.finalSize ∧ p.headOffset + p.finalSize ≤ ro)
        ∧ (∀ p ∈ sealed2.head?, ro < p.headOffset + p.finalSize) := by
  intro sealed
  induction sealed with
  | nil =>
    intro t h ro hchain htail hro hstart
    obtain ⟨hfs, _, _, _⟩ := tailOk_destruct _ _ _ _ htail
    refine ⟨[], [], ?_, rfl, ?_, ?_, by simp, by simp⟩
    · simp [retirePages, hfs]
    · simp only [chainOk, List.nil_append, beq_iff_eq]
      simp [headStart]
    · simp only [List.nil_append] at hstart ⊢
      omega
  | cons p rest ih =>
    intro t h ro hchain htail hro hstart
    simp only [chainOk, Bool.and_eq_true] at hchain
    obtain ⟨hsealed, hchainRest⟩ := hchain
    have hsOk := hsealed
    simp only [sealedOk, Bool.and_eq_true, beq_iff_eq, decide_eq_true_eq] at hsOk
    obtain ⟨⟨⟨hph, hpfs⟩, _⟩, _⟩ := hsOk
    by_cases hack : p.headOffset + p.finalSize ≤ ro
    · -- the head page is fully acknowledged: pop and recurse
      have hnext : headStart (rest ++ [t]) = h + p.finalSize := by
        cases rest with
        | nil =>
          simp only [chainOk, beq_iff_eq] at hchainRest
          simp [headStart, hchainRest]
        | cons q qs =>
          simp only [chainOk, Bool.and_eq_true, sealedOk, beq_iff_eq,
            decide_eq_true_eq] at hchainRest
          simp [headStart, hchainRest.1.1.1.1]
      obtain ⟨sealed2, freed, hrec, hsplit, hchain2, hhs2, hfreed, hhead⟩ :=
        ih t (h + p.finalSize) ro hchainRest htail (by omega) hnext
      refine ⟨sealed2, p :: freed, ?_, by simp [hsplit], hchain2, hhs2, ?_, hhead⟩
      · simp only [List.cons_append, retirePages]
        rw [if_neg (by simp; omega), if_pos (by omega)]
        simp only [List.append_eq]
        rw [hrec]
      · intro q hq
        rcases List.mem_cons.mp hq with hq | hq
        · subst hq
          exact ⟨hpfs, by omega⟩
        · exact hfreed q hq
    · -- the head page still has unacknowledged bytes: stop
      refine ⟨p :: rest, [], ?_, rfl, ?_, ?_, by simp, ?_⟩
      · simp only [List.cons_append, retirePages]
        rw [if_neg (by simp; omega), if_neg (by omega)]
        simp [List.append_eq]
      · rw [hstart]
        simp only [chainOk, Bool.and_eq_true]
        exact ⟨hsealed, hchainRest⟩
      · omega
      · intro q hq
        simp only [List.head?_cons, Option.mem_def, Option.some.injEq] at hq
        subst hq
        omega

/-- `registerReadOffset` on a well-formed window with a non-decreasing
offset: it succeeds, records the offset, retires only sealed pages whose last
byte has been acknowledged, and leaves a still well-formed window whose
remaining first sealed page (if any) has unacknowledged bytes. -/
theorem registerReadOffset_shape (pageSize : Nat) (w : Window) (ro : Nat)
    (hwf : w.wf pageSize = true) (hge : w.global_readOffset ≤ ro) :
    ∃ w2 freed, registerReadOffset w ro = Except.ok w2
      ∧ w2.wf pageSize = true
      ∧ w2.global_readOffset = ro
      ∧ w2.global_writeOffset = w.global_writeOffset
      ∧ w2.history = w.history
      ∧ w2.sent = w.sent
      ∧ w2.connected = w.connected
      ∧ w2.returnedPages = w.returnedPages ++ freed
      ∧ (∀ p ∈ freed, 0 < p.finalSize ∧ p.headOffset + p.finalSize ≤ ro)
      ∧ (∃ sealed2 t, w2.pages = sealed2 ++ [t]
          ∧ w.pages.getLast? = some t
          ∧ tailOk w.history w.global_writeOffset pageSize t = true
          ∧ chainOk w.history pageSize (headStart w2.pages) t.headOffset sealed2 = true
          ∧ headStart w2.pages ≤ ro
          ∧ (∀ p ∈ sealed2.head?, ro < p.headOffset + p.finalSize)) := by
  obtain ⟨hhist, hpOk, hro, hmgok⟩ := wf_destruct pageSize w hwf
  obtain ⟨sealed, t, hpages, hchain, htail⟩ := pagesOk_decomp _ _ _ _ _ hpOk
  have hs : headStart w.pages = headStart (sealed ++ [t]) := by rw [hpages]
  rw [hs] at hchain hro
  obtain ⟨sealed2, freed, hret, hsplit, hchain2, hhs2, hfreed, hhead⟩ :=
    retire_spec w.history pageSize w.global_writeOffset sealed t
      (headStart (sealed ++ [t])) ro hchain htail (by omega) rfl
  refine ⟨{ w with
            global_readOffset := ro,
            pages := sealed2 ++ [t],
            returnedPages := w.returnedPages ++ freed,
            mutationGroup := w.mutationGroup.map
              (fun m => { pageIndex := m.pageIndex - freed.length,
                          pageStartOffset := m.pageStartOffset }) }, freed,
    ?_, ?_, rfl, rfl, rfl, rfl, rfl, rfl, hfreed,
    ⟨sealed2, t, rfl, ?_, htail, ?_, ?_, hhead⟩⟩
  · unfold registerReadOffset
    rw [if_neg (by omega), hpages, hret]
  · -- the retired window is still well-formed
    apply wf_build
    · exact hhist
    · exact pagesOk_build _ _ _ _ _ _ hchain2 htail
    · simp only
      omega
    · -- the mutation group still denotes the (unchanged) tail page
      simp only [mgOk]
      cases hW : w.mutationGroup with
      | none => simp
      | some m =>
        have hm := hmgok
        simp only [mgOk, hW, hpages, Bool.and_eq_true, beq_iff_eq,
          decide_eq_true_eq, List.getLastD_concat, List.length_append,
          List.length_cons, List.length_nil] at hm
        have hlen : sealed.length = freed.length + sealed2.length := by
          rw [hsplit]
          simp
        simp only [Option.map_some', Bool.and_eq_true, beq_iff_eq,
          decide_eq_true_eq, List.getLastD_concat, List.length_append,
          List.length_cons, List.length_nil]
        refine ⟨⟨by omega, by simpa using hm.1.2⟩, hm.2⟩
  · rw [hpages, List.getLast?_concat]
  · exact hchain2
  · exact hhs2

/-- The restream walk over a well-formed page list starting at an offset not
past the first page's unacknowledged byte: it lands exactly on `wOff` and the
chunks it sends concatenate to the history slice `[ro, wOff)`. -/
theorem restreamLoop_spec (hist : List Nat) (pageSize wOff : Nat) :
    ∀ (sealed : List Page) (t : Page) (ro h : Nat),
      chainOk hist pageSize h t.headOffset sealed = true →
      tailOk hist wOff pageSize t = true →
      h ≤ ro → ro ≤ wOff →
      (sealed = [] → t.headOffset ≤ ro) →
      (∀ p, sealed.head? = some p → ro ≤ p.headOffset + p.finalSize) →
      (restreamLoop wOff ro (sealed ++ [t])).1 = wOff
        ∧ (restreamLoop wOff ro (sealed ++ [t])).2.flatten = slice hist ro wOff := by
  intro sealed
  induction sealed with
  | nil =>
    intro t ro h hchain htail hh hro hnil hhead
    obtain ⟨hfs, hbuf, hlt, hcap⟩ := tailOk_destruct _ _ _ _ htail
    have hth : t.headOffset ≤ ro := hnil rfl
    simp only [List.nil_append, restreamLoop]
    rw [if_neg (by omega)]
    refine ⟨by omega, ?_⟩
    simp only [List.flatten_cons, List.flatten_nil, List.append_nil]
    rw [hbuf, slice_drop hist t.headOffset ro wOff hth, slice_take]
  | cons p rest ih =>
    intro t ro h hchain htail hh hro hnil hhead
    simp only [chainOk, Bool.and_eq_true] at hchain
    obtain ⟨hsealed, hchainRest⟩ := hchain
    have hsOk := hsealed
    simp only [sealedOk, Bool.and_eq_true, beq_iff_eq, decide_eq_true_eq] at hsOk
    obtain ⟨⟨⟨hph, hpfs⟩, _⟩, hpbuf⟩ := hsOk
    rw [← hph] at hpbuf hchainRest
    have hple : ro ≤ p.headOffset + p.finalSize := hhead p rfl
    have hendle : p.headOffset + p.finalSize ≤ t.headOffset :=
      chainOk_le hist pageSize rest _ _ hchainRest
    have htlt : t.headOffset < wOff :=
      (tailOk_destruct _ _ _ _ htail).2.2.1
    have hphro : p.headOffset ≤ ro := by omega
    simp only [List.cons_append, restreamLoop]
    rw [if_pos hpfs]
    simp only [List.append_eq]
    rw [show ro + (p.headOffset + p.finalSize - ro) =
      p.headOffset + p.finalSize from by omega]
    have hnilgoal : rest = [] → t.headOffset ≤ p.headOffset + p.finalSize := by
      intro hrest
      subst hrest
      simp only [chainOk, beq_iff_eq] at hchainRest
      omega
    have hheadgoal : ∀ q, rest.head? = some q →
        p.headOffset + p.finalSize ≤ q.headOffset + q.finalSize := by
      intro q hq
      cases rest with
      | nil => simp at hq
      | cons q2 qs =>
        simp only [List.head?_cons, Option.some.injEq] at hq
        subst hq
        simp only [chainOk, Bool.and_eq_true, sealedOk, beq_iff_eq,
          decide_eq_true_eq] at hchainRest
        omega
    obtain ⟨ih1, ih2⟩ := ih t (p.headOffset + p.finalSize)
      (p.headOffset + p.finalSize) hchainRest htail (Nat.le_refl _) (by omega)
      hnilgoal hheadgoal
    refine ⟨ih1, ?_⟩
    simp only [List.flatten_cons]
    rw [ih2, hpbuf]
    rw [slice_drop hist p.headOffset ro (p.headOffset + p.finalSize) hphro,
      slice_take]
    exact slice_glue hist ro (p.headOffset + p.finalSize) wOff hple (by omega)

/-- `reconnect` on a well-formed window with a client-reported offset that is
not below the acknowledged one: it succeeds and re-sends exactly the history
slice `[ro, writeOffset)`, in order; if nothing is outstanding it sends
nothing at all. -/
theorem reconnect_spec (pageSize : Nat) (w : Window) (now ro : Nat)
    (hwf : w.wf pageSize = true) (hge : w.global_readOffset ≤ ro) :
    ∃ w2 chunks, w.reconnect now ro = Except.ok w2
      ∧ w2.sent = w.sent ++ chunks
      ∧ chunks.flatten = slice w.history ro w.global_writeOffset
      ∧ (w.global_writeOffset ≤ ro → chunks = [])
      ∧ w2.global_writeOffset = w.global_writeOffset
      ∧ w2.history = w.history
      ∧ w2.connected = true := by
  have hwf1 : Window.wf pageSize
      { w with connected := true, lastPongTime := now } = true := hwf
  obtain ⟨w2, freed, hreg, hwf2, hro2, hwo2, hhist2, hsent2, hconn2, _, _,
      sealed2, t, hpages2, _, htail2, hchain2, hhs2, hhead2⟩ :=
    registerReadOffset_shape pageSize
      { w with connected := true, lastPongTime := now } ro hwf1 hge
  simp only at hwo2 hhist2 hsent2 hconn2
  have hstep : Window.reconnect w now ro = _restreamUnreadPages w2 := by
    unfold Window.reconnect
    rw [hreg]
  rw [hstep]
  by_cases hlt : ro < w.global_writeOffset
  · -- outstanding bytes: the walk re-sends the slice
    have hnilc : sealed2 = [] → t.headOffset ≤ ro := by
      intro hc
      subst hc
      simpa [headStart, hpages2] using hhs2
    have hheadc : ∀ p, sealed2.head? = some p →
        ro ≤ p.headOffset + p.finalSize := by
      intro p hp
      have := hhead2 p (by rw [hp]; rfl)
      omega
    obtain ⟨hloop1, hloop2⟩ := restreamLoop_spec w.history pageSize
      w.global_writeOffset sealed2 t ro (headStart w2.pages)
      hchain2 htail2 hhs2 (by omega) hnilc hheadc
    unfold _restreamUnreadPages
    rw [hro2, hwo2, hpages2]
    rw [if_pos hlt]
    simp only [hloop1, ne_eq, not_true_eq_false, if_false]
    refine ⟨_, (restreamLoop w.global_writeOffset ro (sealed2 ++ [t])).2,
      rfl, ?_, hloop2, ?_, rfl, hhist2, hconn2⟩
    · simp only [hsent2]
    · intro hcon
      omega
  · -- nothing outstanding: the guard fails and nothing is sent
    unfold _restreamUnreadPages
    rw [hro2, hwo2]
    rw [if_neg (by omega)]
    refine ⟨w2, [], rfl, by simp [hsent2], ?_, fun _ => rfl, hwo2, hhist2, hconn2⟩
    rw [slice_nil_of_ge w.history ro w.global_writeOffset (by omega)]
    simp

/-- The constructor establishes the invariant: after `_streamInitWindow`
writes the 22-byte INIT_WINDOW command, the window is well-formed (provided
a page can hold the command). -/
theorem init_wf (pageSize now : Nat) (idBytes : List Nat)
    (hps : 22 < pageSize) (hid : idBytes.length = 21) :
    (Window.init pageSize now idBytes).wf pageSize = true := by
  have hlen : (2 :: idBytes).length = 22 := by simp [hid]
  unfold Window.init writeCommand _allocCommandBuffer _openMutationGroup Window.fresh
  have hcond : ¬ pageSize ≤ 22 := by omega
  simp [Window.wf, pagesOk, chainOk, tailOk, mgOk, headStart, slice, sealedOk,
    hid, hlen, hcond]
  omega

/-- Flushing the open mutation group preserves the invariant. -/
theorem flush_wf (pageSize : Nat) (w : Window) (hwf : w.wf pageSize = true) :
    (_flushMutationGroup w).wf pageSize = true := by
  obtain ⟨snt, hfl⟩ := flush_shape w
  rw [hfl]
  obtain ⟨h1, h2, h3, _⟩ := wf_destruct pageSize w hwf
  exact wf_build pageSize _ h1 h2 h3 (by simp [mgOk])

/-- Disconnecting only flips the `connected` flag, so preserves the
invariant. -/
theorem disconnect_wf (pageSize : Nat) (w : Window)
    (hwf : w.wf pageSize = true) : (w.disconnect).wf pageSize = true := hwf

/-- Lookup in a token list extended with a fresh name. -/
theorem lookupToken_append (l : List (List Nat × Nat)) (name : List Nat) (n : Nat)
    (h : lookupToken l name = none) :
    lookupToken (l ++ [(name, n)]) name = some n := by
  unfold lookupToken at h ⊢
  induction l with
  | nil => simp
  | cons e rest ih =>
    cases hb : (e.1 == name) with
    | true =>
      simp only [List.find?_cons, hb] at h
      simp at h
    | false =>
      simp only [List.cons_append, List.find?_cons, hb] at h ⊢
      exact ih h

/-- A run of under-limit enqueues appends every message to the shared queue
and advances the session's consumption count accordingly. -/
theorem enqueue_run (wid : Nat) :
    ∀ (msgs : List (List Nat)) (m : Manager),
      m.limiter.counts wid + msgs.length ≤ 8 →
      (msgs.foldl (fun acc msg => acc.enqueueMessage wid msg) m).queue
          = m.queue ++ msgs.map (fun msg => (wid, msg))
        ∧ (msgs.foldl (fun acc msg => acc.enqueueMessage wid msg) m).limiter.counts wid
          = m.limiter.counts wid + msgs.length := by
  intro msgs
  induction msgs with
  | nil => intro m _; simp
  | cons msg rest ih =>
    intro m hcap
    simp only [List.length_cons] at hcap
    have hunder : m.limiter.counts wid < 8 := by omega
    have hstep : (m.enqueueMessage wid msg).queue = m.queue ++ [(wid, msg)]
        ∧ (m.enqueueMessage wid msg).limiter.counts wid
          = m.limiter.counts wid + 1 := by
      unfold Manager.enqueueMessage RateLimiter.consumeSync
      rw [if_pos hunder]
      simp
    obtain ⟨hq, hc⟩ := hstep
    obtain ⟨ihq, ihc⟩ := ih (m.enqueueMessage wid msg) (by omega)
    simp only [List.foldl_cons]
    constructor
    · rw [ihq, hq]
      simp
    · rw [ihc, hc]
      simp only [List.length_cons]
      omega

/-! ### Concrete windows used to witness the claims (small page size 30 so a
few commands already cross a page boundary) -/

/-- A window id of 21 zero bytes. -/
def testId : List Nat := List.replicate 21 0

/-- A freshly constructed window (22 bytes of INIT_WINDOW in page 1). -/
def wtest0 : Window := Window.init 30 1000 testId

/-- ... after one more 5-byte command (27 bytes used of 30). -/
def wtest1 : Window := writeCommand 30 wtest0 [7, 7, 7, 7, 7]

/-- ... after a 4-byte command that overflows page 1 (sealed at 27) into a
fresh page 2. -/
def wtest2 : Window := writeCommand 30 wtest1 [8, 8, 8, 8]

/-- ... flushed, disconnected, and one 3-byte command produced while
disconnected (pending replay). -/
def wtest3 : Window :=
  writeCommand 30 (Window.disconnect (_flushMutationGroup wtest2)) [9, 9, 9]

/-! ### The claims -/

/-- C1: a window that reconnects reporting a client read offset at or above
its last known `readOffset` replays, in order and once, exactly the bytes of
the stream range `[clientReadOffset, writeOffset)` — byte-for-byte the bytes
originally produced for that range (the ghost `history`); when `writeOffset`
does not exceed the reported offset, nothing is resent. -/
theorem claim_C1 (pageSize : Nat) (w : Window) (now ro : Nat)
    (hwf : w.wf pageSize = true) (hge : w.global_readOffset ≤ ro) :
    ∃ w2 chunks, w.reconnect now ro = Except.ok w2
      ∧ w2.sent = w.sent ++ chunks
      ∧ chunks.flatten = slice w.history ro w.global_writeOffset
      ∧ (w.global_writeOffset ≤ ro → chunks = []) := by
  obtain ⟨w2, chunks, h1, h2, h3, h4, _⟩ :=
    reconnect_spec pageSize w now ro hwf hge
  exact ⟨w2, chunks, h1, h2, h3, h4⟩

/-- Witness for C1 at a concrete disconnected window: reconnecting at offset
22 resends exactly history bytes 22..34. -/
theorem claim_C1_witness :
    (Window.wf 30 wtest3 = true ∧ wtest3.global_readOffset ≤ 22)
    ∧ (∃ w2 chunks, wtest3.reconnect 2000 22 = Except.ok w2
        ∧ w2.sent = wtest3.sent ++ chunks
        ∧ chunks.flatten = slice wtest3.history 22 wtest3.global_writeOffset
        ∧ (wtest3.global_writeOffset ≤ 22 → chunks = [])) :=
  ⟨⟨by decide, by decide⟩, claim_C1 30 wtest3 2000 22 (by decide) (by decide)⟩

/-- C2: a single `_allocCommandBuffer(size)` call returns a byte range lying
entirely within one page: the chosen page index is valid and the range
`[start, start + size)` fits inside that page's fixed capacity — commands
are never split across two pages. -/
theorem claim_C2 (pageSize : Nat) (w : Window) (size : Nat)
    (hwf : w.wf pageSize = true) (hsz : 0 < size) (hle : size ≤ pageSize) :
    (_allocCommandBuffer pageSize w size).2.1 <
        (_allocCommandBuffer pageSize w size).1.pages.length
    ∧ (_allocCommandBuffer pageSize w size).2.2 + size ≤ pageSize := by
  obtain ⟨hhist, hpOk, hro, hmgok⟩ := wf_destruct pageSize w hwf
  obtain ⟨sealed, t, hpages, hchain, htail⟩ := pagesOk_decomp _ _ _ _ _ hpOk
  obtain ⟨hfs, hbuf, hlt, hcap⟩ := tailOk_destruct _ _ _ _ htail
  by_cases hov : pageSize ≤ w.global_writeOffset - t.headOffset + size
  · obtain ⟨snt, heq⟩ :=
      (alloc_shape pageSize size w sealed t hpages hmgok hlt).1 hov
    rw [heq]
    constructor
    · simp
    · simpa using hle
  · obtain ⟨pso, _, _, heq⟩ :=
      (alloc_shape pageSize size w sealed t hpages hmgok hlt).2 (by omega)
    rw [heq]
    constructor
    · simp [hpages]
    · simp only
      omega

/-- Witness for C2 at a concrete window and a size that forces a page
overflow. -/
theorem claim_C2_witness :
    (Window.wf 30 wtest1 = true ∧ 0 < 4 ∧ 4 ≤ 30)
    ∧ ((_allocCommandBuffer 30 wtest1 4).2.1 <
          (_allocCommandBuffer 30 wtest1 4).1.pages.length
        ∧ (_allocCommandBuffer 30 wtest1 4).2.2 + 4 ≤ 30) :=
  ⟨⟨by decide, by decide, by decide⟩,
    claim_C2 30 wtest1 4 (by decide) (by decide) (by decide)⟩

/-- C3: `registerReadOffset(newOffset)` throws exactly when `newOffset` is
below the current `global_readOffset` (the state is unchanged in the error
case, as the exception propagates before any assignment), and otherwise sets
`global_readOffset` to `newOffset`; hence the read offset never decreases. -/
theorem claim_C3 (pageSize : Nat) (w : Window) (ro : Nat)
    (hwf : w.wf pageSize = true) :
    (ro < w.global_readOffset →
      registerReadOffset w ro = Except.error "Invalid offset")
    ∧ (w.global_readOffset ≤ ro →
      ∃ w2, registerReadOffset w ro = Except.ok w2
        ∧ w2.global_readOffset = ro
        ∧ w.global_readOffset ≤ w2.global_readOffset) := by
  constructor
  · intro h
    unfold registerReadOffset
    rw [if_pos h]
  · intro h
    obtain ⟨w2, freed, h1, _, h3, _⟩ :=
      registerReadOffset_shape pageSize w ro hwf h
    exact ⟨w2, h1, h3, by omega⟩

/-- Witness for C3: at `wtest3` (readOffset 0), offset 28 is accepted and
recorded. -/
theorem claim_C3_witness :
    (Window.wf 30 wtest3 = true)
    ∧ (28 < wtest3.global_readOffset →
        registerReadOffset wtest3 28 = Except.error "Invalid offset")
    ∧ (wtest3.global_readOffset ≤ 28 →
        ∃ w2, registerReadOffset wtest3 28 = Except.ok w2
          ∧ w2.global_readOffset = 28
          ∧ wtest3.global_readOffset ≤ w2.global_readOffset) :=
  ⟨by decide, (claim_C3 30 wtest3 28 (by decide)).1,
    (claim_C3 30 wtest3 28 (by decide)).2⟩

/-- C4: the pages whose buffers `registerReadOffset` returns to the pool
(the `returnedPages` delta) are all sealed (`0 < finalSize`) and fully
acknowledged (`headOffset + finalSize ≤ readOffset`); an active or not yet
fully acknowledged page is never returned by it. -/
theorem claim_C4 (pageSize : Nat) (w : Window) (ro : Nat) (w2 : Window)
    (hwf : w.wf pageSize = true)
    (hok : registerReadOffset w ro = Except.ok w2) :
    ∀ p ∈ w2.returnedPages.drop w.returnedPages.length,
      0 < p.finalSize ∧ p.headOffset + p.finalSize ≤ ro := by
  by_cases hge : w.global_readOffset ≤ ro
  · obtain ⟨w2x, freed, h1, _, _, _, _, _, _, hret, hfreed, _⟩ :=
      registerReadOffset_shape pageSize w ro hwf hge
    rw [h1] at hok
    injection hok with hok
    subst hok
    rw [hret, List.drop_left]
    exact hfreed
  · unfold registerReadOffset at hok
    rw [if_pos (by omega)] at hok
    cases hok

/-- Witness for C4 at a concrete state: ack at offset 28 retires exactly the
sealed first page. -/
theorem claim_C4_witness :
    (Window.wf 30 wtest3 = true
      ∧ ∃ w2, registerReadOffset wtest3 28 = Except.ok w2)
    ∧ (∀ w2, registerReadOffset wtest3 28 = Except.ok w2 →
        ∀ p ∈ w2.returnedPages.drop wtest3.returnedPages.length,
          0 < p.finalSize ∧ p.headOffset + p.finalSize ≤ 28) := by
  refine ⟨⟨by decide, ?_⟩, ?_⟩
  · exact ⟨(registerReadOffset wtest3 28).toOption.getD wtest3, by rfl⟩
  · intro w2 hok
    exact claim_C4 30 wtest3 28 w2 (by decide) hok

/-- Flushing the pending block deletions does not change the connection
flag (on a well-formed window). -/
theorem flushBlockDeleteQueue_connected (pageSize : Nat) (w : Window)
    (hwf : w.wf pageSize = true) :
    (flushBlockDeleteQueue pageSize w).connected = w.connected := by
  unfold flushBlockDeleteQueue
  by_cases h : 0 < w.deleteBlockIds.length
  · rw [if_pos h]
    exact (writeCommand_fields pageSize w _ hwf).2.2.2.2.2.1
  · rw [if_neg h]

/-- A window which was pinged and disconnected for the sweep: its invariant
is untouched (only `connected` and `sent` change). -/
theorem sweep_aux_wf (pageSize : Nat) (w : Window) (hwf : w.wf pageSize = true) :
    (Window.sendPing { w with connected := false }).wf pageSize = true
      ∧ (Window.sendPing w).wf pageSize = true :=
  ⟨hwf, hwf⟩

/-- C5 (amended): liveness sweep behavior per window. A window with no pong
for at least 6000 ms is marked disconnected by the sweep. A disconnected
window is destroyed when memory is low or at least 60000 ms have elapsed
since its last pong (not since it became disconnected — see the
counterexample); destruction hands every retained page's buffer back to the
pool and removes the session from the registry. -/
theorem claim_C5 (pageSize now : Nat) (isLow : Bool) (w : Window) (wid : Nat)
    (rest : List (Nat × Window)) (hwf : w.wf pageSize = true) :
    (sweepWindow pageSize now isLow w
        = SweepResult.destroyed (w.pages.map Page.buf)
      ↔ ((w.connected = false ∨ 6000 ≤ now - w.lastPongTime)
          ∧ (isLow = true ∨ 60000 ≤ now - w.lastPongTime)))
    ∧ (∀ w2, sweepWindow pageSize now isLow w = SweepResult.kept w2 →
        w2.connected = (w.connected && !decide (6000 ≤ now - w.lastPongTime)))
    ∧ (sweepWindow pageSize now isLow w
          = SweepResult.destroyed (w.pages.map Page.buf) →
        sweepEntries pageSize now isLow ((wid, w) :: rest)
          = ((sweepEntries pageSize now isLow rest).1,
              w.pages.map Page.buf ++ (sweepEntries pageSize now isLow rest).2)) := by
  have hkc : ∀ w3 : Window, w3.wf pageSize = true →
      (flushBlockDeleteQueue pageSize (Window.sendPing w3)).connected
        = w3.connected := by
    intro w3 h3
    rw [flushBlockDeleteQueue_connected pageSize (Window.sendPing w3) h3]
    rfl
  have hmark_pos : 6000 ≤ now - w.lastPongTime →
      sweepMark now w = { w with connected := false } := by
    intro h
    simp [sweepMark, h]
  have hmark_neg : ¬ 6000 ≤ now - w.lastPongTime → sweepMark now w = w := by
    intro h
    simp [sweepMark, h]
  constructor
  · -- destruction condition
    unfold sweepWindow Window.destroyFreedBuffers
    by_cases h6 : 6000 ≤ now - w.lastPongTime
    · rw [hmark_pos h6]
      by_cases hd : isLow = true ∨ 60000 ≤ now - w.lastPongTime
      · rw [if_pos ⟨rfl, hd⟩]
        simp only [SweepResult.destroyed.injEq]
        exact ⟨fun _ => ⟨Or.inr h6, hd⟩, fun _ => trivial⟩
      · rw [if_neg (by intro hcon; exact hd hcon.2)]
        refine ⟨fun hcon => ?_, fun hcon => absurd hcon.2 hd⟩
        cases hcon
    · rw [hmark_neg h6]
      by_cases hc : w.connected = false ∧ (isLow = true ∨ 60000 ≤ now - w.lastPongTime)
      · rw [if_pos hc]
        simp only [SweepResult.destroyed.injEq]
        exact ⟨fun _ => ⟨Or.inl hc.1, hc.2⟩, fun _ => trivial⟩
      · rw [if_neg hc]
        constructor
        · intro hcon
          cases hcon
        · intro hcon
          rcases hcon.1 with h | h
          · exact absurd ⟨h, hcon.2⟩ hc
          · exact absurd h h6
  constructor
  · -- the kept window's connected flag
    intro w2 hkept
    unfold sweepWindow at hkept
    by_cases h6 : 6000 ≤ now - w.lastPongTime
    · rw [hmark_pos h6] at hkept
      by_cases hd : ((false : Bool) = false) ∧ (isLow = true ∨ 60000 ≤ now - w.lastPongTime)
      · rw [if_pos hd] at hkept
        cases hkept
      · rw [if_neg hd] at hkept
        injection hkept with hkept
        subst hkept
        rw [hkc { w with connected := false } hwf]
        simp [h6]
    · rw [hmark_neg h6] at hkept
      by_cases hc : w.connected = false ∧ (isLow = true ∨ 60000 ≤ now - w.lastPongTime)
      · rw [if_pos hc] at hkept
        cases hkept
      · rw [if_neg hc] at hkept
        injection hkept with hkept
        subst hkept
        rw [hkc w hwf]
        simp [h6]
  · -- a destroyed window is dropped from the registry, its buffers freed
    intro hdes
    simp only [sweepEntries]
    rw [hdes]

/-- The window of the C5 scenario: constructed (and last ponged) at time 0. -/
def wsweep : Window := Window.init 64 0 testId

/-- The same window after the sweep at time 6000 marked it disconnected
(ping sent, no pending block deletions to flush). -/
def wsweepB : Window :=
  flushBlockDeleteQueue 64 (Window.sendPing (Window.disconnect wsweep))

/-- C5 is false as stated: a window that last ponged at time 0 is marked
disconnected by the sweep at time 6000 and destroyed by the sweep at time
60000 with memory not low — at that point the disconnection has persisted
only 54000 ms, less than the 60-second eviction window the claim requires.
The code destroys 60 s after the last pong, not 60 s after disconnection. -/
theorem claim_C5_counterexample :
    sweepWindow 64 6000 false wsweep = SweepResult.kept wsweepB
    ∧ wsweepB.connected = false
    ∧ sweepWindow 64 60000 false wsweepB
        = SweepResult.destroyed (wsweepB.pages.map Page.buf)
    ∧ 60000 - 6000 < 60000 := by
  refine ⟨by decide, by decide, by decide, by decide⟩

/-- Witness for C5 (amended) at a window disconnected since the 6000 ms
sweep, swept again at 60000 ms with memory not low. -/
theorem claim_C5_witness :
    Window.wf 64 wsweepB = true
    ∧ ((sweepWindow 64 60000 false wsweepB
          = SweepResult.destroyed (wsweepB.pages.map Page.buf)
        ↔ ((wsweepB.connected = false ∨ 6000 ≤ 60000 - wsweepB.lastPongTime)
            ∧ ((false : Bool) = true ∨ 60000 ≤ 60000 - wsweepB.lastPongTime)))
      ∧ (∀ w2, sweepWindow 64 60000 false wsweepB = SweepResult.kept w2 →
          w2.connected
            = (wsweepB.connected && !decide (6000 ≤ 60000 - wsweepB.lastPongTime)))
      ∧ (sweepWindow 64 60000 false wsweepB
            = SweepResult.destroyed (wsweepB.pages.map Page.buf) →
          sweepEntries 64 60000 false ((7, wsweepB) :: [])
            = ((sweepEntries 64 60000 false []).1,
                wsweepB.pages.map Page.buf ++ (sweepEntries 64 60000 false []).2))) :=
  ⟨by decide, claim_C5 64 60000 false wsweepB 7 [] (by decide)⟩

/-- C6: an inbound message for a session that is over the rate limit
(8 messages per interval) is dropped: it is not enqueued in the shared queue
and no error is surfaced (the handler returns normally); an under-limit
message is appended to the shared queue. In particular, of 9 messages
arriving for one session within one rate-limit interval, the first 8 are
enqueued and the 9th is dropped. -/
theorem claim_C6 (m : Manager) (wid : Nat) (msg : List Nat)
    (msgs : List (List Nat)) :
    (8 ≤ m.limiter.counts wid → (m.enqueueMessage wid msg).queue = m.queue)
    ∧ (m.limiter.counts wid < 8 →
        (m.enqueueMessage wid msg).queue = m.queue ++ [(wid, msg)])
    ∧ (m.limiter.counts wid = 0 → msgs.length = 9 →
        (msgs.foldl (fun acc x => acc.enqueueMessage wid x) m).queue
          = m.queue ++ (msgs.take 8).map (fun x => (wid, x))) := by
  have hover : ∀ (mm : Manager) (x : List Nat), 8 ≤ mm.limiter.counts wid →
      (mm.enqueueMessage wid x).queue = mm.queue := by
    intro mm x h
    have hn : ¬ mm.limiter.counts wid < 8 := by omega
    simp [Manager.enqueueMessage, RateLimiter.consumeSync, hn]
  have hunder : ∀ (mm : Manager) (x : List Nat), mm.limiter.counts wid < 8 →
      (mm.enqueueMessage wid x).queue = mm.queue ++ [(wid, x)] := by
    intro mm x h
    simp [Manager.enqueueMessage, RateLimiter.consumeSync, h]
  refine ⟨hover m msg, hunder m msg, ?_⟩
  intro h0 h9
  have htlen : (msgs.take 8).length = 8 := by
    simp [List.length_take, h9]
  have hfold : msgs.foldl (fun acc x => acc.enqueueMessage wid x) m
      = (msgs.drop 8).foldl (fun acc x => acc.enqueueMessage wid x)
          ((msgs.take 8).foldl (fun acc x => acc.enqueueMessage wid x) m) := by
    rw [← List.foldl_append, List.take_append_drop]
  obtain ⟨hq8, hc8⟩ := enqueue_run wid (msgs.take 8) m (by omega)
  obtain ⟨last, hlast⟩ := List.length_eq_one.mp
    (by simp [List.length_drop, h9] : (msgs.drop 8).length = 1)
  rw [hfold, hlast]
  simp only [List.foldl_cons, List.foldl_nil]
  rw [hover _ last (by omega), hq8]

/-- A manager with an empty registry and queue and a fresh rate limiter. -/
def mtest : Manager :=
  { windowMap := [], queue := [], limiter := ⟨fun _ => 0⟩ }

/-- Nine messages arriving within one rate-limit interval. -/
def msgs9 : List (List Nat) :=
  [[0], [1], [2], [3], [4], [5], [6], [7], [8]]

/-- Witness for C6: on a fresh manager, of the nine messages the first 8 are
enqueued and the 9th is dropped (final queue length 8). -/
theorem claim_C6_witness :
    ((8 ≤ mtest.limiter.counts 5 →
        (mtest.enqueueMessage 5 [42]).queue = mtest.queue)
      ∧ (mtest.limiter.counts 5 < 8 →
        (mtest.enqueueMessage 5 [42]).queue = mtest.queue ++ [(5, [42])])
      ∧ (mtest.limiter.counts 5 = 0 → msgs9.length = 9 →
        (msgs9.foldl (fun acc x => acc.enqueueMessage 5 x) mtest).queue
          = mtest.queue ++ (msgs9.take 8).map (fun x => (5, x))))
    ∧ (msgs9.foldl (fun acc x => acc.enqueueMessage 5 x) mtest).queue.length = 8 :=
  ⟨claim_C6 mtest 5 [42] msgs9, by rfl⟩

/-- The backward scan passes over every strictly deeper item. -/
theorem addScan_all_gt (item : WorkItem) :
    ∀ l : List WorkItem, (∀ x ∈ l, ¬ x.depth ≤ item.depth) →
      addScan item l = l ++ [item] := by
  intro l
  induction l with
  | nil => intro _; rfl
  | cons x rest ih =>
    intro h
    unfold addScan
    rw [if_neg (h x (by simp))]
    rw [ih (fun y hy => h y (by simp [hy]))]
    simp

/-- The backward scan stops right at the first item (scanning from the most
recent) whose depth is less than or equal to the inserted item's. -/
theorem addScan_through (item : WorkItem) :
    ∀ (l : List WorkItem) (x : WorkItem) (r : List WorkItem),
      (∀ y ∈ l, ¬ y.depth ≤ item.depth) → x.depth ≤ item.depth →
      addScan item (l ++ x :: r) = l ++ item :: x :: r := by
  intro l
  induction l with
  | nil =>
    intro x r _ hx
    simp only [List.nil_append, addScan]
    rw [if_pos hx]
  | cons y rest ih =>
    intro x r h hx
    simp only [List.cons_append, addScan]
    rw [if_neg (h y (by simp))]
    simp only [List.append_eq]
    rw [ih x r (fun z hz => h z (by simp [hz])) hx]

/-- C7: `WorkQueue.add` inserts a new item immediately after the last (most
recently inserted) item whose depth is ≤ the new item's depth, and at the
front when no such item exists; `WorkQueue.poll` removes and returns the
front item. -/
theorem claim_C7 :
    (∀ (q : List WorkItem) (item : WorkItem),
        (∀ x ∈ q, item.depth < x.depth) → WorkQueue.add q item = item :: q)
    ∧ (∀ (q1 q2 : List WorkItem) (x item : WorkItem),
        x.depth ≤ item.depth → (∀ y ∈ q2, item.depth < y.depth) →
        WorkQueue.add (q1 ++ x :: q2) item = q1 ++ x :: item :: q2)
    ∧ (∀ (x : WorkItem) (q : List WorkItem),
        WorkQueue.poll (x :: q) = (some x, q))
    ∧ WorkQueue.poll ([] : List WorkItem) = (none, []) := by
  refine ⟨?_, ?_, fun x q => rfl, rfl⟩
  · intro q item h
    unfold WorkQueue.add
    rw [addScan_all_gt item q.reverse
      (fun x hx => by have := h x (List.mem_reverse.mp hx); omega)]
    simp
  · intro q1 q2 x item hx h2
    unfold WorkQueue.add
    have hrev : (q1 ++ x :: q2).reverse = q2.reverse ++ x :: q1.reverse := by
      simp
    rw [hrev]
    rw [addScan_through item q2.reverse x q1.reverse
      (fun y hy => by have := h2 y (List.mem_reverse.mp hy); omega) hx]
    simp

/-- Witness for C7: inserting depth 3 into a queue with depths [1, 2, 5]
places it after the depth-2 item, before the deeper depth-5 item. -/
theorem claim_C7_witness :
    ((⟨2, 11⟩ : WorkItem).depth ≤ (⟨3, 99⟩ : WorkItem).depth
      ∧ (∀ y ∈ [(⟨5, 12⟩ : WorkItem)], (⟨3, 99⟩ : WorkItem).depth < y.depth))
    ∧ WorkQueue.add [⟨1, 10⟩, ⟨2, 11⟩, ⟨5, 12⟩] ⟨3, 99⟩
        = [⟨1, 10⟩, ⟨2, 11⟩, ⟨3, 99⟩, ⟨5, 12⟩] :=
  ⟨⟨by decide, by decide⟩,
    claim_C7.2.1 [⟨1, 10⟩] [⟨5, 12⟩] ⟨2, 11⟩ ⟨3, 99⟩ (by decide) (by decide)⟩

/-- C8: token registration is stable: registering the same attribute/style
name twice yields the same id both times and only the first registration
emits a MODIFY_TOKENMAP command (the second call returns the window
unchanged); a fresh name appends exactly one MODIFY_TOKENMAP command
(opcode 12, wrapped length byte, name bytes, trailing 0) to the stream and
registers the name under id `tokenList.length`. -/
theorem claim_C8 (pageSize : Nat) (w : Window) (name : List Nat)
    (hwf : w.wf pageSize = true) :
    ((_registerAttrKey pageSize (_registerAttrKey pageSize w name).1 name).2
        = (_registerAttrKey pageSize w name).2
      ∧ (_registerAttrKey pageSize (_registerAttrKey pageSize w name).1 name).1
        = (_registerAttrKey pageSize w name).1)
    ∧ ((lookupToken w.tokenList name).isSome = true →
        _registerAttrKey pageSize w name
          = (w, (lookupToken w.tokenList name).getD 0))
    ∧ (lookupToken w.tokenList name = none →
        (_registerAttrKey pageSize w name).1.history
            = w.history ++ (12 :: (name.length % 256) :: (name ++ [0]))
          ∧ (_registerAttrKey pageSize w name).1.tokenList
            = w.tokenList ++ [(name, w.tokenList.length)]
          ∧ (_registerAttrKey pageSize w name).2 = w.tokenList.length) := by
  have hstep : ∀ v : Window, (lookupToken v.tokenList name).isSome = true →
      _registerAttrKey pageSize v name
        = (v, (lookupToken v.tokenList name).getD 0) := by
    intro v hv
    unfold _registerAttrKey
    rw [if_pos hv]
  by_cases hs : (lookupToken w.tokenList name).isSome = true
  · have h1 := hstep w hs
    refine ⟨⟨by simp [h1], by simp [h1]⟩, fun _ => h1, fun hn => ?_⟩
    rw [hn] at hs
    simp at hs
  · have hnone : lookupToken w.tokenList name = none := by
      cases h : lookupToken w.tokenList name with
      | none => rfl
      | some v => rw [h] at hs; simp at hs
    have h1 : _registerAttrKey pageSize w name
        = (_streamModifyToken pageSize
            { w with tokenList := w.tokenList ++ [(name, w.tokenList.length)] }
            name,
          (lookupToken (_streamModifyToken pageSize
            { w with tokenList := w.tokenList ++ [(name, w.tokenList.length)] }
            name).tokenList name).getD 0) := by
      unfold _registerAttrKey
      rw [if_neg hs]
    have hTL : (_streamModifyToken pageSize
        { w with tokenList := w.tokenList ++ [(name, w.tokenList.length)] }
        name).tokenList = w.tokenList ++ [(name, w.tokenList.length)] :=
      (writeCommand_fields pageSize
        { w with tokenList := w.tokenList ++ [(name, w.tokenList.length)] }
        (12 :: (name.length % 256) :: (name ++ [0])) hwf).2.2.2.2.1
    have hlook : lookupToken (_streamModifyToken pageSize
        { w with tokenList := w.tokenList ++ [(name, w.tokenList.length)] }
        name).tokenList name = some w.tokenList.length := by
      rw [hTL]
      exact lookupToken_append _ _ _ hnone
    have hw1 : (_registerAttrKey pageSize w name).1
        = _streamModifyToken pageSize
            { w with tokenList := w.tokenList ++ [(name, w.tokenList.length)] }
            name := by
      rw [h1]
    have hw2 : (_registerAttrKey pageSize w name).2
        = (lookupToken (_streamModifyToken pageSize
            { w with tokenList := w.tokenList ++ [(name, w.tokenList.length)] }
            name).tokenList name).getD 0 := by
      rw [h1]
    have hsome1 : (lookupToken (_registerAttrKey pageSize w name).1.tokenList
        name).isSome = true := by
      rw [hw1, hlook]
      rfl
    refine ⟨⟨?_, ?_⟩, fun hsome => ?_, fun _ => ⟨?_, ?_, ?_⟩⟩
    · rw [hstep _ hsome1, hw2, hw1]
    · rw [hstep _ hsome1]
    · rw [hnone] at hsome
      simp at hsome
    · rw [hw1]
      exact (writeCommand_fields pageSize
        { w with tokenList := w.tokenList ++ [(name, w.tokenList.length)] }
        (12 :: (name.length % 256) :: (name ++ [0])) hwf).1
    · rw [hw1]
      exact hTL
    · rw [hw2, hlook]
      rfl

/-- Witness for C8 at a freshly initialised window and the two-byte token
name [99, 100]. -/
theorem claim_C8_witness :
    Window.wf 30 wtest0 = true
    ∧ (((_registerAttrKey 30 (_registerAttrKey 30 wtest0 [99, 100]).1
            [99, 100]).2
          = (_registerAttrKey 30 wtest0 [99, 100]).2
        ∧ (_registerAttrKey 30 (_registerAttrKey 30 wtest0 [99, 100]).1
            [99, 100]).1
          = (_registerAttrKey 30 wtest0 [99, 100]).1)
      ∧ ((lookupToken wtest0.tokenList [99, 100]).isSome = true →
          _registerAttrKey 30 wtest0 [99, 100]
            = (wtest0, (lookupToken wtest0.tokenList [99, 100]).getD 0))
      ∧ (lookupToken wtest0.tokenList [99, 100] = none →
          (_registerAttrKey 30 wtest0 [99, 100]).1.history
              = wtest0.history
                  ++ (12 :: (([99, 100] : List Nat).length % 256)
                        :: ([99, 100] ++ [0]))
            ∧ (_registerAttrKey 30 wtest0 [99, 100]).1.tokenList
              = wtest0.tokenList ++ [([99, 100], wtest0.tokenList.length)]
            ∧ (_registerAttrKey 30 wtest0 [99, 100]).2
              = wtest0.tokenList.length)) :=
  ⟨by decide, claim_C8 30 wtest0 [99, 100] (by decide)⟩

/-- C9: the constructor establishes the pages invariant; under it the pages
list is never empty and its last page always has `finalSize = 0`, and the
invariant is preserved by command writes, mutation-group flushes, and
read-offset registration — whose retirement loop therefore always stops at
the retained active tail page rather than running off the end of the list. -/
theorem claim_C9 (pageSize now : Nat) (idBytes : List Nat) (w : Window)
    (hps : 22 < pageSize) (hid : idBytes.length = 21)
    (hwf : w.wf pageSize = true) :
    (Window.init pageSize now idBytes).wf pageSize = true
    ∧ w.pages ≠ []
    ∧ (∃ t, w.pages.getLast? = some t ∧ t.finalSize = 0)
    ∧ (∀ data : List Nat, 0 < data.length → data.length ≤ pageSize →
        (writeCommand pageSize w data).wf pageSize = true)
    ∧ (_flushMutationGroup w).wf pageSize = true
    ∧ (∀ ro, w.global_readOffset ≤ ro →
        ∃ w2, registerReadOffset w ro = Except.ok w2
          ∧ w2.wf pageSize = true
          ∧ w2.pages.getLast? = w.pages.getLast?) := by
  obtain ⟨hhist, hpOk, hro, hmgok⟩ := wf_destruct pageSize w hwf
  obtain ⟨sealed, t, hpages, hchain, htail⟩ := pagesOk_decomp _ _ _ _ _ hpOk
  obtain ⟨hfs, hbuf, hlt, hcap⟩ := tailOk_destruct _ _ _ _ htail
  refine ⟨init_wf pageSize now idBytes hps hid, ?_, ?_, ?_, flush_wf pageSize w hwf, ?_⟩
  · rw [hpages]
    simp
  · refine ⟨t, ?_, hfs⟩
    rw [hpages]
    exact List.getLast?_concat _
  · intro data h0 hle
    exact writeCommand_wf pageSize w data hwf h0 hle
  · intro ro hge
    obtain ⟨w2, freed, hok, hwf2, _, _, _, _, _, _, _, sealed2, t2, hp2, hlast,
      _, _, _, _⟩ := registerReadOffset_shape pageSize w ro hwf hge
    refine ⟨w2, hok, hwf2, ?_⟩
    rw [hp2, List.getLast?_concat, hlast]

/-- Witness for C9 at a window that has crossed a page boundary. -/
theorem claim_C9_witness :
    (22 < 30 ∧ testId.length = 21 ∧ Window.wf 30 wtest2 = true)
    ∧ ((Window.init 30 1000 testId).wf 30 = true
      ∧ wtest2.pages ≠ []
      ∧ (∃ t, wtest2.pages.getLast? = some t ∧ t.finalSize = 0)
      ∧ (∀ data : List Nat, 0 < data.length → data.length ≤ 30 →
          (writeCommand 30 wtest2 data).wf 30 = true)
      ∧ (_flushMutationGroup wtest2).wf 30 = true
      ∧ (∀ ro, wtest2.global_readOffset ≤ ro →
          ∃ w2, registerReadOffset wtest2 ro = Except.ok w2
            ∧ w2.wf 30 = true
            ∧ w2.pages.getLast? = wtest2.pages.getLast?)) :=
  ⟨⟨by decide, by decide, by decide⟩,
    claim_C9 30 1000 testId wtest2 (by decide) (by decide) (by decide)⟩

/-- C10: the manager's public interface treats unknown session ids
asymmetrically: `disconnectWindow` is guarded by a registry membership check
and is a silent no-op, while `reconnectWindow` performs no existence check
and throws (method call on `undefined`); the registry is unchanged in both
cases. -/
theorem claim_C10 (m : Manager) (wid now ro : Nat)
    (h : m.getWindow wid = none) :
    m.disconnectWindow wid = m
    ∧ ∃ e, m.reconnectWindow wid now ro = Except.error e := by
  constructor
  · unfold Manager.disconnectWindow
    rw [h]
  · unfold Manager.reconnectWindow
    rw [h]
    exact ⟨_, rfl⟩

/-- Witness for C10: on a manager with an empty registry, disconnecting an
unknown id is a no-op and reconnecting it errors. -/
theorem claim_C10_witness :
    Manager.getWindow mtest 5 = none
    ∧ mtest.disconnectWindow 5 = mtest
    ∧ ∃ e, mtest.reconnectWindow 5 0 0 = Except.error e :=
  ⟨rfl, (claim_C10 mtest 5 0 0 rfl).1, (claim_C10 mtest 5 0 0 rfl).2⟩

end Seniman
